import Mathlib

/-!
Verification development for the DiscordBot repository.

The Python sources under `src/` are shallowly embedded as executable Lean
definitions: dictionaries with optional keys become structures with
`Option String` fields, Python string operations (`in`, `lower`, `strip`,
`split`, slicing) become explicit functions on `List Char`/`String`, and
the concrete regular expressions used by the sources are embedded as
dedicated recursive scanners with the same matching semantics (leftmost
search, lazy/greedy quantifier behaviour of the specific patterns).
Scanners whose recursion consumes a non-structural suffix take an explicit
fuel argument instantiated with the input length, which strictly bounds
the number of scanning steps.
-/

/-- Python truthiness of a string-or-None value (None and "" are falsy). -/
def present (o : Option String) : Bool :=
  match o with
  | none => false
  | some s => !s.isEmpty

/-- Python whitespace characters (the ASCII ones relevant to `str.split`,
`str.strip` and the `\s` regex class). -/
def isPyWs (c : Char) : Bool :=
  c = ' ' || c = '\t' || c = '\n' || c = '\r' || c = Char.ofNat 11 || c = Char.ofNat 12

/-- Does the first list occur as a leading run of the second? -/
def leadRun : List Char → List Char → Bool
  | [], _ => true
  | _ :: _, [] => false
  | a :: as1, b :: bs1 => a = b && leadRun as1 bs1

/-- Python substring test `n in h` on character lists. -/
def pyInL (n : List Char) : List Char → Bool
  | [] => n.isEmpty
  | c :: r => leadRun n (c :: r) || pyInL n r

/-- Python substring test `n in h` on strings. -/
def pyIn (n h : String) : Bool := pyInL n.toList h.toList

/-- Python `str.lower()` (ASCII case folding, which covers every character
the sources feed to it). -/
def pyLower (s : String) : String := String.mk (s.toList.map Char.toLower)

/-- Python `str.strip()` on a character list. -/
def pyStripL (l : List Char) : List Char :=
  ((l.dropWhile isPyWs).reverse.dropWhile isPyWs).reverse

/-- Python `str.strip()`. -/
def pyStrip (s : String) : String := String.mk (pyStripL s.toList)

/-- Worker for Python `str.split()` with no separator: split on runs of
whitespace, discarding empty pieces.  `acc` holds the current word reversed. -/
def pySplitAux : List Char → List Char → List String
  | [], acc => if acc.isEmpty then [] else [String.mk acc.reverse]
  | c :: r, acc =>
    if isPyWs c then
      if acc.isEmpty then pySplitAux r [] else String.mk acc.reverse :: pySplitAux r []
    else pySplitAux r (c :: acc)

/-- Python `str.split()` (whitespace tokenization). -/
def pySplit (s : String) : List String := pySplitAux s.toList []

/-- Python `token.startswith('-')`: the token's first character is a
hyphen.  (Defined on the character list so that it reduces in the
kernel; `String.startsWith` does not.) -/
def startsDash (t : String) : Bool :=
  match t.toList with
  | c :: _ => c = '-'
  | [] => false

/-- A job/event record: a Python dict with string values and possibly
absent keys, as produced and consumed by `src/data_processing/job_event.py`
and `src/bot.py` (`job.get(key, default)` reads a field with a fallback). -/
structure JobRec where
  jType : Option String := none
  jSubType : Option String := none
  jTitle : Option String := none
  jDescription : Option String := none
  jCompany : Option String := none
  jLocation : Option String := none
  jWhenDate : Option String := none
  jPubDate : Option String := none
  jLink : Option String := none
  jEntryDate : Option String := none
  deriving DecidableEq, Repr

/-- The filter dictionary produced by the command parsers: six named slots,
each a string or None. -/
structure Filters where
  role : Option String := none
  type : Option String := none
  season : Option String := none
  company : Option String := none
  location : Option String := none
  general_search : Option String := none
  deriving DecidableEq, Repr

namespace JobEvent

/-- Case-insensitive substring test of a filter value against one record
field, as written repeatedly inside `filter_jobs`
(`filters[k].lower() in job.get(F, '').lower()`). -/
def fieldMatch (v : String) (field : Option String) : Bool :=
  pyIn (pyLower v) (pyLower (field.getD ""))

/-- The `general_match` disjunction of `filter_jobs`
(src/data_processing/job_event.py lines 115-130): the term may appear in
any of the seven searchable fields. -/
def generalMatch (v : String) (j : JobRec) : Bool :=
  fieldMatch v j.jTitle || fieldMatch v j.jDescription || fieldMatch v j.jType ||
    fieldMatch v j.jCompany || fieldMatch v j.jLocation || fieldMatch v j.jWhenDate ||
    fieldMatch v j.jPubDate

/-- The `role_match` disjunction of `filter_jobs`
(src/data_processing/job_event.py lines 133-140): despite the inline
comment "check in title or description", the code also checks Type,
Company and Location. -/
def roleMatch (v : String) (j : JobRec) : Bool :=
  fieldMatch v j.jTitle || fieldMatch v j.jDescription || fieldMatch v j.jType ||
    fieldMatch v j.jCompany || fieldMatch v j.jLocation

/-- The `type_match` disjunction (lines 145-150). -/
def typeMatch (v : String) (j : JobRec) : Bool :=
  fieldMatch v j.jTitle || fieldMatch v j.jDescription || fieldMatch v j.jType

/-- The `season_match` disjunction (lines 155-161). -/
def seasonMatch (v : String) (j : JobRec) : Bool :=
  fieldMatch v j.jTitle || fieldMatch v j.jDescription || fieldMatch v j.jWhenDate ||
    fieldMatch v j.jPubDate

/-- The `company_match` disjunction (lines 166-171). -/
def companyMatch (v : String) (j : JobRec) : Bool :=
  fieldMatch v j.jCompany || fieldMatch v j.jTitle || fieldMatch v j.jDescription

/-- The `location_match` test (line 177). -/
def locationMatch (v : String) (j : JobRec) : Bool :=
  fieldMatch v j.jLocation

/-- The per-record `include_job` computation of `filter_jobs`: each check
runs only when its slot is truthy, and every failed check clears the flag,
so a record survives exactly when every present slot matches. -/
def include_job (f : Filters) (j : JobRec) : Bool :=
  (!present f.general_search || generalMatch (f.general_search.getD "") j) &&
    (!present f.role || roleMatch (f.role.getD "") j) &&
    (!present f.type || typeMatch (f.type.getD "") j) &&
    (!present f.season || seasonMatch (f.season.getD "") j) &&
    (!present f.company || companyMatch (f.company.getD "") j) &&
    (!present f.location || locationMatch (f.location.getD "") j)

/-- `filter_jobs` of src/data_processing/job_event.py (lines 98-184):
appends each surviving record, in input order, to the result. -/
def filter_jobs : List JobRec → Filters → List JobRec
  | [], _ => []
  | j :: rest, f =>
    if include_job f j then j :: filter_jobs rest f else filter_jobs rest f

end JobEvent

namespace BotCmd

/-- The `role_match` disjunction of the nested `filter_jobs` inside the
`!jobs` command of src/bot.py (lines 203-207): title and description only. -/
def roleMatch (v : String) (j : JobRec) : Bool :=
  JobEvent.fieldMatch v j.jTitle || JobEvent.fieldMatch v j.jDescription

/-- The per-record inclusion of src/bot.py's `filter_jobs` (lines 198-249):
same slot structure as the job_event version, no `general_search` slot
consulted, and role checked against title/description only. -/
def include_job (f : Filters) (j : JobRec) : Bool :=
  (!present f.role || roleMatch (f.role.getD "") j) &&
    (!present f.type || JobEvent.typeMatch (f.type.getD "") j) &&
    (!present f.season || JobEvent.seasonMatch (f.season.getD "") j) &&
    (!present f.company || JobEvent.companyMatch (f.company.getD "") j) &&
    (!present f.location || JobEvent.locationMatch (f.location.getD "") j)

/-- `filter_jobs` nested in the `!jobs` command of src/bot.py
(lines 185-251). -/
def filter_jobs : List JobRec → Filters → List JobRec
  | [], _ => []
  | j :: rest, f =>
    if include_job f j then j :: filter_jobs rest f else filter_jobs rest f

end BotCmd

namespace JobEvent

/-- Scanner for the regex `\[([^\]]*)\]` used by `re.findall` in
`paste_jobs_command`: at a literal opening bracket, capture every
following character up to a closing bracket; an unclosed bracket matches
nothing and scanning proceeds.  Fuel bounds the scan; it is instantiated
with the input length, which the leftmost-scan consumption never exceeds. -/
def bracketMatchesAux : Nat → List Char → List String
  | 0, _ => []
  | _ + 1, [] => []
  | n + 1, c :: r =>
    if c = '[' then
      let inside := r.takeWhile (fun d => d ≠ ']')
      match r.dropWhile (fun d => d ≠ ']') with
      | ']' :: r2 => String.mk inside :: bracketMatchesAux n r2
      | _ => bracketMatchesAux n r
    else bracketMatchesAux n r

/-- `re.findall(r'\[([^\]]*)\]', s)`. -/
def bracketMatches (l : List Char) : List String := bracketMatchesAux l.length l

/-- Bracket-notation slot assignment of `paste_jobs_command` (lines 43-52):
the i-th bracket content maps to the i-th slot when its stripped value is
non-empty; brackets beyond the fifth are ignored. -/
def bracketSlot (ms : List String) (i : Nat) : Option String :=
  match ms.get? i with
  | some m => if (pyStrip m).isEmpty then none else some (pyStrip m)
  | none => none

/-- Exit of the flag-notation loop (lines 92-95): the accumulated general
search terms (held reversed during the loop) joined by single spaces, or
an absent slot when there were none. -/
def finishFlags (f : Filters) (gen : List String) : Filters :=
  { f with general_search :=
      if gen.isEmpty then none else some (String.intercalate " " gen.reverse) }

/-- The flag-notation token loop of `paste_jobs_command` (lines 56-95):
a recognized flag with a following token consumes it as the slot value; a
recognized flag at the end of the tokens (where the loop then exits), or
an unrecognized flag, is skipped; every other token is accumulated into
the general search terms. -/
def flagLoop : Filters → List String → List String → Filters
  | f, gen, [] => finishFlags f gen
  | f, gen, t :: rest =>
    if startsDash t then
      if t = "-r" || t = "--role" then
        match rest with
        | v :: r2 => flagLoop { f with role := some v } gen r2
        | [] => finishFlags f gen
      else if t = "-t" || t = "--type" then
        match rest with
        | v :: r2 => flagLoop { f with type := some v } gen r2
        | [] => finishFlags f gen
      else if t = "-s" || t = "--season" then
        match rest with
        | v :: r2 => flagLoop { f with season := some v } gen r2
        | [] => finishFlags f gen
      else if t = "-c" || t = "--company" then
        match rest with
        | v :: r2 => flagLoop { f with company := some v } gen r2
        | [] => finishFlags f gen
      else if t = "-l" || t = "--location" then
        match rest with
        | v :: r2 => flagLoop { f with location := some v } gen r2
        | [] => finishFlags f gen
      else flagLoop f gen rest
    else flagLoop f (t :: gen) rest

/-- `paste_jobs_command` of src/data_processing/job_event.py (lines 7-95):
empty input yields all slots absent; input containing both a literal
opening and closing bracket takes the bracket notation; otherwise the
flag-notation loop runs over the whitespace tokens. -/
def paste_jobs_command (command_args : String) : Filters :=
  if (pyStrip command_args).isEmpty then {}
  else if command_args.toList.contains '[' && command_args.toList.contains ']' then
    let ms := bracketMatches command_args.toList
    { role := bracketSlot ms 0, type := bracketSlot ms 1,
      season := bracketSlot ms 2, company := bracketSlot ms 3,
      location := bracketSlot ms 4 }
  else flagLoop {} [] (pySplit command_args)

/-- One record's rendered block (`job_text`) inside `format_jobs_message`
(src/data_processing/job_event.py lines 218-245).  The bold heading is
`job.get('Description', job.get('Title', 'Untitled Position'))` — the
Description value whenever that key is present, even empty — and the
company line renders `job.get('Title', 'Unknown Company')`. -/
def jobBlock (j : JobRec) : String :=
  let company := j.jTitle.getD "Unknown Company"
  let location := j.jLocation.getD "Location not specified"
  let when_date := j.jWhenDate.getD ""
  let pub_date := j.jPubDate.getD ""
  let link := j.jLink.getD ""
  let title := j.jDescription.getD (j.jTitle.getD "Untitled Position")
  let t := "**" ++ title ++ "**\n🏢 " ++ company ++ "\n"
  let t := if !location.isEmpty then t ++ "📍 " ++ location else t
  let t := t ++ "\n"
  let t := if !when_date.isEmpty then t ++ "📅 " ++ when_date ++ "\n" else t
  let t := if !pub_date.isEmpty then t ++ "📅 Posted: " ++ pub_date ++ "\n" else t
  if !link.isEmpty then t ++ "🔗 [Apply Here](" ++ link ++ ")\n" else t

/-- The `filter_desc` list built by `format_jobs_message` (lines 202-209):
truthy slots rendered as "key: value" in the dict's insertion order, with
`general_search` rendered as "search: value". -/
def filterDesc (f : Filters) : List String :=
  (if present f.role then ["role: " ++ f.role.getD ""] else []) ++
    (if present f.type then ["type: " ++ f.type.getD ""] else []) ++
    (if present f.season then ["season: " ++ f.season.getD ""] else []) ++
    (if present f.company then ["company: " ++ f.company.getD ""] else []) ++
    (if present f.location then ["location: " ++ f.location.getD ""] else []) ++
    (if present f.general_search then ["search: " ++ f.general_search.getD ""] else [])

/-- `format_jobs_message` of src/data_processing/job_event.py
(lines 187-250): one single string — a header stating the count and the
active filters, the blocks of the first 10 records, and a "... and N more"
suffix when more than 10 matched.  No character budget is enforced and no
chunk splitting happens. -/
def format_jobs_message (jobs : List JobRec) (filters : Option Filters) : String :=
  if jobs.isEmpty then "💼 No jobs found matching your criteria."
  else
    let filter_desc := match filters with
      | some f => filterDesc f
      | none => []
    let filter_text :=
      if !filter_desc.isEmpty then
        " (Filters: " ++ String.intercalate ", " filter_desc ++ ")"
      else ""
    let message := "💼 **Found " ++ toString jobs.length ++ " job(s)" ++ filter_text ++ ":**\n\n"
    let display_jobs := jobs.take 10
    let message := message ++ String.join (display_jobs.map (fun j => jobBlock j ++ "\n"))
    if jobs.length > 10 then
      message ++ "... and " ++ toString (jobs.length - 10) ++
        " more jobs. Use more specific filters to narrow results."
    else message

/-- The dedup identity of a record: title+company+link, per the spec's
Record Store contract. -/
def dedupKey (j : JobRec) : Option String × Option String × Option String :=
  (j.jTitle, j.jCompany, j.jLink)

/-- Modelled from the spec: `remove_duplicates` lives in
data_collections/csv_updater.py, which is not among the provided sources.
Per the spec's Record Store Adapter contract, two records are duplicates
if their identifying tuple (title, company, link) is equal; the first
occurrence is kept and the order of the rest is preserved. -/
def remove_duplicatesAux (seen : List (Option String × Option String × Option String)) :
    List JobRec → List JobRec
  | [] => []
  | j :: rest =>
    if seen.contains (dedupKey j) then remove_duplicatesAux seen rest
    else j :: remove_duplicatesAux (dedupKey j :: seen) rest

/-- Modelled from the spec: see `remove_duplicatesAux`. -/
def remove_duplicates (records : List JobRec) : List JobRec :=
  remove_duplicatesAux [] records

/-- The `allowed_types` set of `getJobs` (line 270). -/
def allowed_types : List String := ["job", "internship", "full-time", "part-time", "co-op", "coop"]

/-- `getJobs` of src/data_processing/job_event.py (lines 253-282).  The
outcome of `extract_entries_from_csv` (absent from the sources; its read
of a missing/unreadable file either raises or yields rows) is taken as an
`Except` argument: any exception inside the `try` block is caught,
logged, and turned into the empty list. -/
def getJobs (readResult : Except String (List JobRec)) (command_args : String) : List JobRec :=
  match readResult with
  | .error _ => []
  | .ok entries =>
    let jobs := remove_duplicates entries
    let jobs := jobs.filter (fun j => allowed_types.contains (pyLower (j.jType.getD "")))
    if !(pyStrip command_args).isEmpty then
      filter_jobs jobs (paste_jobs_command command_args)
    else jobs

end JobEvent

namespace Rss

/-- The `VALID_STATES` set of src/data_collections/jobs.py (lines 6-57). -/
def VALID_STATES : List String :=
  ["AL", "AK", "AZ", "AR", "CA", "CO", "CT", "DE", "FL", "GA", "HI", "ID", "IL",
   "IN", "IA", "KS", "KY", "LA", "ME", "MD", "MA", "MI", "MN", "MS", "MO", "MT",
   "NE", "NV", "NH", "NJ", "NM", "NY", "NC", "ND", "OH", "OK", "OR", "PA", "RI",
   "SC", "SD", "TN", "TX", "UT", "VT", "VA", "WA", "WV", "WI", "WY"]

/-- A regex word character (`\w` over the ASCII text these sources handle). -/
def isWordChar (c : Char) : Bool := c.isAlphanum || c = '_'

/-- Case-insensitive literal-prefix test (the pattern list is compared
with both sides lower-cased, matching `re.IGNORECASE`). -/
def startsWithCI : List Char → List Char → Bool
  | [], _ => true
  | _ :: _, [] => false
  | a :: p, b :: l => (Char.toLower b = Char.toLower a) && startsWithCI p l

/-- A `\b` boundary holds before the match when the previous character
(if any) is not a word character. -/
def boundaryOk (prev : Option Char) : Bool :=
  match prev with
  | none => true
  | some c => !isWordChar c

/-- A `\b` boundary holds after the match when the next character (if any)
is not a word character. -/
def afterOk (l : List Char) : Bool :=
  match l.head? with
  | none => true
  | some c => !isWordChar c

/-- Scanner for `re.search(r"\b<word>\b", text, re.IGNORECASE)` with a
literal word: does the word occur somewhere with word boundaries? -/
def hasWordCIAux (w : List Char) : Option Char → List Char → Bool
  | _, [] => false
  | prev, c :: r =>
    (boundaryOk prev && startsWithCI w (c :: r) && afterOk ((c :: r).drop w.length))
      || hasWordCIAux w (some c) r

/-- Word-boundary case-insensitive search used for remote/telecommute/hybrid. -/
def hasWordCI (w : String) (s : List Char) : Bool := hasWordCIAux w.toList none s

/-- The capture of `Location\s*:\s*(.+?)(?:\n|$)` once `Location` and the
colon have been consumed: after the greedy whitespace run the lazy `.+?`
takes everything up to the first newline or the end.  When only
whitespace remains, backtracking hands the last non-newline whitespace
character (if any) to `.+?`; otherwise the match attempt fails. -/
def groupAfterColon (t : List Char) : Option (List Char) :=
  let u := t.dropWhile isPyWs
  if u.isEmpty then
    match t.reverse.find? (fun c => c ≠ '\n') with
    | some c => some [c]
    | none => none
  else some (u.takeWhile (fun c => c ≠ '\n'))

/-- One attempt of the `Location\s*:\s*(.+?)(?:\n|$)` match (IGNORECASE)
anchored at the current position. -/
def matchLocAt (l : List Char) : Option (List Char) :=
  if startsWithCI "location".toList l then
    match (l.drop 8).dropWhile isPyWs with
    | ':' :: t => groupAfterColon t
    | _ => none
  else none

/-- `re.search` for the Location line: leftmost position where the
pattern matches, returning the captured group. -/
def findLocLine : List Char → Option (List Char)
  | [] => none
  | c :: r =>
    match matchLocAt (c :: r) with
    | some g => some g
    | none => findLocLine r

/-- The character class `[A-Za-z .\-'&]` of the city-state pattern. -/
def isLocClass (c : Char) : Bool :=
  c.isAlpha || c = ' ' || c = '.' || c = '-' || c = Char.ofNat 39 || c = '&'

/-- The place-name characters named by the spec: letters, spaces,
periods, hyphens and apostrophes (a strict subset of the regex class,
which also admits ampersands). -/
def isClaimPlaceChar (c : Char) : Bool :=
  c.isAlpha || c = ' ' || c = '.' || c = '-' || c = Char.ofNat 39

/-- Lazy expansion of `[A-Za-z .\-'&]+?` followed by `, [A-Z]{2}`: at each
boundary the engine first tries to finish with a literal comma-space and
two capitals (the comma is outside the class, so reaching one that does
not complete the pattern fails the attempt), and otherwise consumes one
more class character.  Returns the matched text and the characters after
the match. -/
def lazyRun (acc : List Char) : List Char → Option (List Char × List Char)
  | [] => none
  | c :: r =>
    if c = ',' then
      match r with
      | ' ' :: a :: b :: r2 =>
        if a.isUpper && b.isUpper then some (acc ++ [',', ' ', a, b], r2) else none
      | _ => none
    else if isLocClass c then lazyRun (acc ++ [c]) r
    else none

/-- One anchored attempt of `([A-Za-z .\-'&]+?, [A-Z]{2})`: the lazy
quantifier must consume at least one class character before the first
completion test. -/
def tryCS : List Char → Option (List Char × List Char)
  | [] => none
  | c :: r => if isLocClass c then lazyRun [c] r else none

/-- `re.findall` scan for the city-state pattern: leftmost
non-overlapping matches, resuming after each match.  Fuel bounds the
number of scanning steps; each step consumes at least one character, so
the input length suffices. -/
def findAllCSAux : Nat → List Char → List String
  | 0, _ => []
  | _ + 1, [] => []
  | n + 1, c :: r =>
    match tryCS (c :: r) with
    | some (m, rest) => String.mk m :: findAllCSAux n rest
    | none => findAllCSAux n r

/-- `re.findall(r"([A-Za-z .\-'&]+?, [A-Z]{2})", line)`. -/
def findAllCS (l : List Char) : List String := findAllCSAux l.length l

/-- Python `set.add` modelled on an insertion-ordered duplicate-free list:
only membership in the result is specified (`list(result)` order is not). -/
def addOnce (l : List String) (s : String) : List String :=
  if l.contains s then l else l ++ [s]

/-- Python `loc.rsplit(", ", 1)` combined with the `", " in loc` guard:
`some (before, after)` splits at the last occurrence of comma-space,
`none` means the separator does not occur. -/
def rsplitCS : List Char → Option (List Char × List Char)
  | [] => none
  | c :: r =>
    match rsplitCS r with
    | some (b, a) => some (c :: b, a)
    | none => if c = ',' && r.head? = some ' ' then some ([], r.tail) else none

/-- The per-match validation loop of `extract_locations` (lines 142-150):
strip the match, split off the state after the last comma-space, and keep
the match only for a valid state code and at most 3 whitespace-delimited
words. -/
def cityStateLoop (result : List String) : List String → List String
  | [] => result
  | m :: rest =>
    let loc := pyStrip m
    let result2 :=
      match rsplitCS loc.toList with
      | some (_, state) =>
        if VALID_STATES.contains (String.mk state) && (pySplit loc).length ≤ 3 then
          addOnce result loc
        else result
      | none => result
    cityStateLoop result2 rest

/-- `extract_locations` of src/data_collections/jobs.py (lines 121-152). -/
def extract_locations (description : String) : List String :=
  if description.isEmpty then ["Unknown"]
  else
    let result : List String := []
    let result :=
      if hasWordCI "remote" description.toList || hasWordCI "telecommute" description.toList
      then addOnce result "Remote" else result
    let result := if hasWordCI "hybrid" description.toList then addOnce result "Hybrid" else result
    let result :=
      match findLocLine description.toList with
      | none => result
      | some g => cityStateLoop result (findAllCS (pyStripL g))
    if result.isEmpty then ["Unknown"] else result

/-- Match test at the current position for `\s+at` (IGNORECASE): a
whitespace character here, and after the greedy whitespace run the
letters "at" in either case (`a` is not whitespace, so backtracking
cannot place the literal anywhere else). -/
def wsAtHere (l : List Char) : Bool :=
  match l with
  | [] => false
  | c :: _ => isPyWs c && startsWithCI "at".toList (l.dropWhile isPyWs)

/-- Does any position of the list match `\s+at`?  (When false, the title
cleanup substitution leaves the string untouched.) -/
def hasWsAt : List Char → Bool
  | [] => false
  | c :: r => wsAtHere (c :: r) || hasWsAt r

/-- `re.sub(r"\s+at.*", "", title, flags=re.IGNORECASE)`: scan left to
right; at the leftmost position matching `\s+at`, delete through the rest
of that line (`.` stops at a newline) and continue scanning after the
deleted span; other characters are kept.  Fuel bounds the scan and is
instantiated with the input length. -/
def cleanAtAux : Nat → List Char → List Char
  | 0, l => l
  | _ + 1, [] => []
  | n + 1, c :: r =>
    if wsAtHere (c :: r) then
      cleanAtAux n ((((c :: r).dropWhile isPyWs).drop 2).dropWhile (fun d => d ≠ '\n'))
    else c :: cleanAtAux n r

/-- The title cleanup of `getJobs` (src/data_collections/jobs.py line 74). -/
def cleanTitleAt (s : String) : String := String.mk (cleanAtAux s.toList.length s.toList)

/-- The lookahead `(?=\n|<|Expires:)` of the employer pattern, tested at
the current position (it fails at the end of the input). -/
def empTermHere (l : List Char) : Bool :=
  l.head? = some '\n' || l.head? = some '<' || leadRun "Expires:".toList l

/-- Lazy expansion of `.*?` (DOTALL) up to the employer lookahead: the
shortest consumed text after which the lookahead holds, or `none` when
the input ends without it. -/
def employerLazy : List Char → Option (List Char)
  | [] => none
  | c :: r =>
    if empTermHere (c :: r) then some []
    else (employerLazy r).map (fun t => c :: t)

/-- `re.search(r"Employer:.*?(?=\n|<|Expires:)", descrip, re.DOTALL)`:
leftmost occurrence of the literal label whose lazy tail reaches a
terminator; returns the matched text (label included, terminator not). -/
def findEmployer : List Char → Option (List Char)
  | [] => none
  | c :: r =>
    if leadRun "Employer:".toList (c :: r) then
      match employerLazy ((c :: r).drop 9) with
      | some t => some ("Employer:".toList ++ t)
      | none => findEmployer r
    else findEmployer r

/-- Python `str.removeprefix`. -/
def pyRemovePre (p : List Char) (l : List Char) : List Char :=
  if leadRun p l then l.drop p.length else l

/-- The date token of `Expires:\s*(\d{2}/\d{2}/\d{4})` anchored after the
label and the whitespace run: two digits, slash, two digits, slash, four
digits (anything may follow). -/
def parseExpiresDate : List Char → Option (List Char × List Char × List Char)
  | d1 :: d2 :: '/' :: e1 :: e2 :: '/' :: y1 :: y2 :: y3 :: y4 :: _ =>
    if d1.isDigit && d2.isDigit && e1.isDigit && e2.isDigit &&
        y1.isDigit && y2.isDigit && y3.isDigit && y4.isDigit then
      some ([d1, d2], [e1, e2], [y1, y2, y3, y4])
    else none
  | _ => none

/-- `re.search(r"Expires:\s*(\d{2}/\d{2}/\d{4})", descrip)`: leftmost
occurrence of the label followed by a well-shaped date token. -/
def findExpires : List Char → Option (List Char × List Char × List Char)
  | [] => none
  | c :: r =>
    if leadRun "Expires:".toList (c :: r) then
      match parseExpiresDate (((c :: r).drop 8).dropWhile isPyWs) with
      | some x => some x
      | none => findExpires r
    else findExpires r

/-- Decimal value of a digit string. -/
def charsToNat (l : List Char) : Nat :=
  l.foldl (fun acc c => acc * 10 + (c.toNat - 48)) 0

/-- Gregorian leap year, as `datetime` uses. -/
def isLeap (y : Nat) : Bool := (y % 4 = 0 && y % 100 ≠ 0) || y % 400 = 0

/-- Days in a month, as `datetime` uses. -/
def daysInMonth (m y : Nat) : Nat :=
  if m = 2 then (if isLeap y then 29 else 28)
  else if m = 4 || m = 6 || m = 9 || m = 11 then 30
  else 31

/-- Calendar validation performed by
`datetime.datetime.strptime(date_str, "%m/%d/%Y")`: month 1-12, day
within the month, year at least 1. -/
def validDate (mm dd yyyy : Nat) : Bool :=
  1 ≤ mm && mm ≤ 12 && 1 ≤ dd && dd ≤ daysInMonth mm yyyy && 1 ≤ yyyy

/-- One raw feedparser entry: a dict whose `title`, `description`,
`published` and `link` keys may be absent (`entry.get(k, "")`). -/
structure FeedEntry where
  title : Option String := none
  description : Option String := none
  published : Option String := none
  link : Option String := none
  deriving DecidableEq, Repr

/-- The parse result handed back by `feedparser.parse`: the
well-formedness flag `bozo`, its exception text, and the entries list. -/
structure FeedData where
  bozo : Bool := false
  bozoException : String := ""
  entries : List FeedEntry := []
  deriving DecidableEq, Repr

/-- The record built per entry by `getJobs` (lines 74-114): `Location` is
the token list from `extract_locations`, and `entryDate` is the capture
timestamp (passed in as `now` since `datetime.now` is ambient I/O). -/
structure RssJob where
  rType : String
  rSubType : String
  rCompany : String
  rTitle : String
  rDescription : String
  rWhenDate : String
  rPubDate : String
  rLocation : List String
  rLink : String
  rEntryDate : String
  deriving DecidableEq, Repr

/-- The loop body of `getJobs` (src/data_collections/jobs.py lines 73-116)
normalizing one raw entry into a record. -/
def normalizeEntry (now : String) (entry : FeedEntry) : RssJob :=
  let title := cleanTitleAt (entry.title.getD "")
  let descrip := entry.description.getD ""
  let company :=
    match findEmployer descrip.toList with
    | some g => pyStrip (String.mk (pyRemovePre "Employer: ".toList g))
    | none => "Unknown"
  let whenDate :=
    match findExpires descrip.toList with
    | some (mm, dd, yy) =>
      if validDate (charsToNat mm) (charsToNat dd) (charsToNat yy) then
        String.mk (mm ++ '/' :: dd ++ '/' :: yy)
      else "Unknown"
    | none => "Unknown"
  let locations := extract_locations descrip
  { rType := "Job", rSubType := "", rCompany := company, rTitle := title,
    rDescription := "", rWhenDate := whenDate, rPubDate := entry.published.getD "",
    rLocation := locations, rLink := entry.link.getD "", rEntryDate := now }

/-- `getJobs` of src/data_collections/jobs.py (lines 60-118), applied to
an already-parsed feed (the fetch/parse call itself is external I/O whose
own exceptions are re-raised as a distinct wrapped error before this
point): a set `bozo` flag raises the malformed-feed error — before the
entries are ever consulted — and otherwise every entry is normalized in
order.  Python's `repr` of the URL is rendered with single quotes. -/
def getJobs (url : String) (data : FeedData) (now : String) : Except String (List RssJob) :=
  if data.bozo then
    Except.error ("Malformed RSS feed '" ++ url ++ "': " ++ data.bozoException)
  else
    Except.ok (data.entries.map (normalizeEntry now))

end Rss

namespace PrintEvents

/-- One row of the events table as `itertuples` yields it. The model
covers tables whose cells are all present, so every `pd.notna` test in
`getitems` is true. -/
structure EventRow where
  eType : String
  eTitle : String
  eWhenDate : String
  eLocation : String
  eLink : String
  deriving DecidableEq, Repr

/-- The `months` list of src/data_processing/print_events.py (lines 8-21). -/
def months : List String :=
  ["january", "february", "march", "april", "may", "june", "july", "august",
   "september", "october", "november", "december"]

/-- The `common_tags` list (lines 22-39). -/
def common_tags : List String :=
  ["job fair", "career fair", "workshop", "info session", "ecs",
   "information session", "session", "fair", "panel", "open house",
   "conference", "presentation", "talk", "seminar", "bootcamp", "training"]

/-- The month-detection loop (lines 42-46): the first month name occurring
in the lower-cased message, or the empty string. -/
def monthOf (message : String) : String :=
  (months.find? (fun m => pyIn m (pyLower message))).getD ""

/-- The tag-collection loop (lines 48-51). -/
def tagsOf (message : String) : List String :=
  common_tags.filter (fun t => pyIn t (pyLower message))

/-- `getitems` (lines 112-124) for a row with no missing cells. -/
def getitems (row : EventRow) : String :=
  "**" ++ row.eTitle ++ "**\nWhen: " ++ row.eWhenDate ++ "\nWhere: " ++
    row.eLocation ++ "\nLink: [Click Here](" ++ row.eLink ++ ") \n\n"

/-- The `event_found` computation for one row (lines 55-75), reduced to
whether the counter ends positive. -/
def eventFound (date : String) (tags : List String) (row : EventRow) : Bool :=
  if !date.isEmpty then
    if pyIn date (pyLower row.eWhenDate) then
      if tags.isEmpty then true else tags.any (fun t => pyIn t (pyLower row.eTitle))
    else false
  else
    if tags.isEmpty then true else tags.any (fun t => pyIn t (pyLower row.eTitle))

/-- The row loop of `print_events` (lines 54-81): rows are consumed while
`count < 7` (the counter is never incremented, so this test never fails)
and the Type cell contains "Event"; the first row failing that test
breaks the loop.  Matching rows append their rendered block. -/
def printEventsLoop (date : String) (tags : List String) (count : Nat) :
    List EventRow → String
  | [] => ""
  | row :: rest =>
    if count < 7 && pyIn "Event" row.eType then
      (if eventFound date tags row then getitems row else "") ++
        printEventsLoop date tags count rest
    else ""

/-- `print_events` of src/data_processing/print_events.py (lines 4-88):
the accumulated body is truncated to its first 1999 characters — possibly
cutting a block mid-way — and replaced by the no-events message when
shorter than 20 characters.  The table read from disk is passed in. -/
def print_events (message : String) (database : List EventRow) : String :=
  let date := monthOf message
  let tags := tagsOf message
  let return_msg := printEventsLoop date tags 0 database
  let return_msg := String.mk (return_msg.toList.take 1999)
  if return_msg.toList.length < 20 then "No events found :(" else return_msg

end PrintEvents

/-- Slot consumed by a recognized flag, following the spec's §4.5 wording:
the recognized short and long flag pairs are -r and --role, -t and
--type, -s and --season, -c and --company, -l and --location; anything
else is not a recognized flag. -/
def slotUpdate (t : String) : Option (Filters → String → Filters) :=
  if t = "-r" || t = "--role" then some (fun f v => { f with role := some v })
  else if t = "-t" || t = "--type" then some (fun f v => { f with type := some v })
  else if t = "-s" || t = "--season" then some (fun f v => { f with season := some v })
  else if t = "-c" || t = "--company" then some (fun f v => { f with company := some v })
  else if t = "-l" || t = "--location" then some (fun f v => { f with location := some v })
  else none

/-- End of the spec-level flag parse: the accumulated tokens, in original
order, joined by single spaces into general_search (absent when none). -/
def specFinish (f : Filters) (gen : List String) : Filters :=
  { f with general_search :=
      if gen.isEmpty then none else some (String.intercalate " " gen) }

/-- Modelled from the spec's words (refinement target for the flag
notation, §4.5): tokenize on whitespace; each recognized flag consumes
exactly the next token as its value; an unrecognized flag, or a
recognized flag with no following token, is skipped without error; every
non-flag, non-consumed token is accumulated in original order and joined
by single spaces into general_search (absent when there are none). -/
def specFlagAux : Filters → List String → List String → Filters
  | f, gen, [] => specFinish f gen
  | f, gen, t :: rest =>
    if startsDash t then
      match rest with
      | v :: r2 =>
        match slotUpdate t with
        | some upd => specFlagAux (upd f v) gen r2
        | none => specFlagAux f gen (v :: r2)
      | [] => specFinish f gen
    else specFlagAux f (gen ++ [t]) rest

/-- Modelled from the spec's words: the flag-notation contract of §4.5,
applied to the whitespace tokens of the argument string. -/
def specFlagParse (s : String) : Filters := specFlagAux {} [] (pySplit s)

/-- A single record whose Description is 2500 characters: long enough
that any rendering of it must exceed a 2000-character message budget. -/
def bigDescS : String := String.mk (List.replicate 2500 'a')

/-! ## Theorems -/

/-- C8: with every slot of the filter specification absent, `filter_jobs`
returns its input list unchanged. -/
theorem filter_jobs_all_slots_absent_identity :
    ∀ jobs : List JobRec, JobEvent.filter_jobs jobs {} = jobs := by
  intro jobs
  induction jobs with
  | nil => rfl
  | cons j rest ih =>
    simp [JobEvent.filter_jobs, JobEvent.include_job, present, ih]

/-- C9: both filter implementations return an order-preserving subsequence
of their input — no reordering, duplication or fabrication of records. -/
theorem filter_jobs_sublist_of_input :
    (∀ (jobs : List JobRec) (f : Filters), (JobEvent.filter_jobs jobs f).Sublist jobs) ∧
      (∀ (jobs : List JobRec) (f : Filters), (BotCmd.filter_jobs jobs f).Sublist jobs) := by
  constructor
  · intro jobs f
    induction jobs with
    | nil => simp [JobEvent.filter_jobs]
    | cons j rest ih =>
      simp only [JobEvent.filter_jobs]
      split
      · exact ih.cons₂ j
      · exact ih.cons j
  · intro jobs f
    induction jobs with
    | nil => simp [BotCmd.filter_jobs]
    | cons j rest ih =>
      simp only [BotCmd.filter_jobs]
      split
      · exact ih.cons₂ j
      · exact ih.cons j

/-- C1: a record whose role value occurs only in its Company field is
included by the job_event `filter_jobs` (which, contrary to its own
"check in title or description" comment, also matches Type, Company and
Location) and excluded by the bot.py `filter_jobs` (which matches title
and description only, as the spec states). -/
theorem role_filter_matches_company_bug :
    JobEvent.filter_jobs
        [{ jTitle := some "Engineer II", jDescription := some "Build things",
           jType := some "Job", jCompany := some "developer tools inc",
           jLocation := some "Remote" }]
        { role := some "developer" } =
      [{ jTitle := some "Engineer II", jDescription := some "Build things",
         jType := some "Job", jCompany := some "developer tools inc",
         jLocation := some "Remote" }] ∧
    BotCmd.filter_jobs
        [{ jTitle := some "Engineer II", jDescription := some "Build things",
           jType := some "Job", jCompany := some "developer tools inc",
           jLocation := some "Remote" }]
        { role := some "developer" } = [] := by
  exact ⟨by decide, by decide⟩

/-- C3 (counterexample): a failed store read and a genuinely empty store
produce the same `getJobs` result — the empty list — so the caller cannot
tell them apart; no failure is reported. -/
theorem getJobs_read_failure_indistinguishable :
    JobEvent.getJobs (Except.error "FileNotFoundError: runningCSV.csv") "" = ([] : List JobRec) ∧
      JobEvent.getJobs (Except.ok []) "" = ([] : List JobRec) :=
  ⟨rfl, rfl⟩

/-- C3 (amended): for every read error and every argument string,
`getJobs` swallows the exception and returns exactly what an empty store
returns. -/
theorem getJobs_read_failure_empty :
    ∀ (e : String) (args : String),
      JobEvent.getJobs (Except.error e) args = JobEvent.getJobs (Except.ok []) args := by
  intro e args
  simp [JobEvent.getJobs, JobEvent.remove_duplicates, JobEvent.remove_duplicatesAux,
    JobEvent.filter_jobs]

/-- C5: whenever the parsed feed has its well-formedness (bozo) flag set,
the RSS `getJobs` fails with the wrapped malformed-feed error — whatever
the entries list holds, so no partial record list is ever returned. -/
theorem rss_getJobs_bozo_raises :
    ∀ (url : String) (data : Rss.FeedData) (now : String),
      data.bozo = true →
      Rss.getJobs url data now =
        Except.error ("Malformed RSS feed '" ++ url ++ "': " ++ data.bozoException) := by
  intro url data now h
  simp [Rss.getJobs, h]

/-- C5 witness: a bozo feed with a non-empty entries list still yields the
malformed-feed error. -/
theorem rss_getJobs_bozo_raises_witness :
    Rss.getJobs "http://feed"
        { bozo := true, bozoException := "syntax error",
          entries := [{ title := some "Dev at X" }] } "now" =
      Except.error "Malformed RSS feed 'http://feed': syntax error" :=
  rss_getJobs_bozo_raises "http://feed" _ "now" rfl

/-- Every rendered block starts with the bold heading
`job.get('Description', job.get('Title', 'Untitled Position'))` followed
by the company line rendering `job.get('Title', 'Unknown Company')`. -/
theorem jobBlock_decomp (j : JobRec) :
    ∃ rest, JobEvent.jobBlock j =
      "**" ++ (j.jDescription.getD (j.jTitle.getD "Untitled Position")) ++ "**\n🏢 " ++
        j.jTitle.getD "Unknown Company" ++ rest := by
  simp only [JobEvent.jobBlock]
  split_ifs <;> (simp only [String.append_assoc]; exact ⟨_, rfl⟩)

/-- `format_jobs_message` on a singleton result and no filters is the
header followed by that record's block. -/
theorem format_jobs_message_single (j : JobRec) :
    JobEvent.format_jobs_message [j] none =
      "💼 **Found 1 job(s):**\n\n" ++ (JobEvent.jobBlock j ++ "\n") := by
  simp only [JobEvent.format_jobs_message]
  simp only [List.isEmpty_cons, Bool.false_eq_true, if_false, List.length_cons,
    List.length_nil, List.take, List.map, String.join, List.foldl]
  norm_num
  congr 1

/-- C10: in `format_jobs_message` a displayed record's bold heading is its
Description value whenever that key is present — an empty string renders
an empty heading — the Title fallback applies only when the key is
absent, and the Title value is rendered on the block's company line. -/
theorem format_heading_uses_description_key :
    (∀ (j : JobRec) (d : String), j.jDescription = some d →
        ∃ rest, JobEvent.jobBlock j =
          "**" ++ d ++ "**\n🏢 " ++ j.jTitle.getD "Unknown Company" ++ rest) ∧
      (∀ j : JobRec, j.jDescription = none →
        ∃ rest, JobEvent.jobBlock j =
          "**" ++ j.jTitle.getD "Untitled Position" ++ "**\n🏢 " ++
            j.jTitle.getD "Unknown Company" ++ rest) ∧
      (∀ j : JobRec, JobEvent.format_jobs_message [j] none =
        "💼 **Found 1 job(s):**\n\n" ++ (JobEvent.jobBlock j ++ "\n")) := by
  refine ⟨fun j d hd => ?_, fun j hd => ?_, format_jobs_message_single⟩
  · obtain ⟨rest, h⟩ := jobBlock_decomp j
    rw [hd] at h
    exact ⟨rest, h⟩
  · obtain ⟨rest, h⟩ := jobBlock_decomp j
    rw [hd] at h
    exact ⟨rest, h⟩

/-- C10 witness: a record carrying `Description == ""` renders an empty
bold heading while its Title appears on the company line. -/
theorem format_heading_uses_description_key_witness :
    ∃ rest, JobEvent.jobBlock { jTitle := some "Data Analyst", jDescription := some "" } =
      "**" ++ "" ++ "**\n🏢 " ++ "Data Analyst" ++ rest :=
  format_heading_uses_description_key.1
    { jTitle := some "Data Analyst", jDescription := some "" } "" rfl

/-- C2 (counterexample): a result set whose formatted body exceeds the
2000-character budget is returned by the formatter as one single string
longer than the budget — nothing is split into chunks. -/
theorem format_jobs_message_exceeds_budget_unsplit :
    2000 < (JobEvent.format_jobs_message [{ jDescription := some bigDescS }] none).length := by
  obtain ⟨rest, hb⟩ := jobBlock_decomp { jDescription := some bigDescS }
  rw [format_jobs_message_single, hb]
  simp only [Option.getD, String.length_append]
  have h1 : bigDescS.length = 2500 := by
    rw [bigDescS, String.length_mk, List.length_replicate]
  simp [h1]
  omega

/-- C2 (amended): the plain-text events renderer enforces its character
budget by hard truncation of the single message — its output never
exceeds 1999 characters (and may cut a block mid-way), rather than by
splitting into chunks. -/
theorem print_events_length_le_budget :
    ∀ (message : String) (db : List PrintEvents.EventRow),
      (PrintEvents.print_events message db).length ≤ 1999 := by
  intro m db
  simp only [PrintEvents.print_events]
  split
  · decide
  · show (String.mk (List.take 1999 _)).length ≤ 1999
    rw [String.length_mk, List.length_take]
    exact min_le_left _ _

/-- Reversal does not change emptiness of the accumulated token list. -/
theorem isEmpty_rev {α : Type} (l : List α) : l.reverse.isEmpty = l.isEmpty := by
  cases l <;> simp

/-- A string whose Python strip is empty is all whitespace. -/
theorem pyStrip_nil_all_ws {l : List Char} (h : pyStripL l = []) :
    ∀ c ∈ l, isPyWs c = true := by
  intro c hc
  unfold pyStripL at h
  rw [List.reverse_eq_nil_iff, List.dropWhile_eq_nil_iff] at h
  rcases List.mem_append.mp ((List.takeWhile_append_dropWhile isPyWs l ▸ hc) : _) with h1 | h1
  · exact List.mem_takeWhile_imp h1
  · exact h _ (List.mem_reverse.mpr h1)

/-- Python `split()` of an all-whitespace string is the empty token list. -/
theorem pySplitAux_nil_of_ws {l : List Char} (h : ∀ c ∈ l, isPyWs c = true) :
    pySplitAux l [] = [] := by
  induction l with
  | nil => rfl
  | cons c r ih =>
    simp only [pySplitAux, h c (by simp), if_true, List.isEmpty_nil, ite_true]
    exact ih fun d hd => h d (by simp [hd])

/-- The job_event flag loop refines the spec-level flag parse: the
general terms are held reversed by the implementation and in order by the
specification. -/
theorem flagLoop_eq_spec (f : Filters) (gen ts : List String) :
    JobEvent.flagLoop f gen ts = specFlagAux f gen.reverse ts := by
  induction f, gen, ts using JobEvent.flagLoop.induct with
  | case1 f gen =>
    simp [JobEvent.flagLoop, specFlagAux, JobEvent.finishFlags, specFinish, isEmpty_rev]
  | case2 f gen t h1 h2 v r2 ih =>
    simp only [Bool.or_eq_true, decide_eq_true_eq] at h2
    rcases h2 with rfl | rfl <;>
      simp [JobEvent.flagLoop, specFlagAux, slotUpdate, ih,
        (by decide : startsDash "-r" = true), (by decide : startsDash "--role" = true)]
  | case3 f gen t h1 h2 =>
    simp only [Bool.or_eq_true, decide_eq_true_eq] at h2
    rcases h2 with rfl | rfl <;>
      simp [JobEvent.flagLoop, specFlagAux, slotUpdate, JobEvent.finishFlags, specFinish,
        isEmpty_rev, (by decide : startsDash "-r" = true), (by decide : startsDash "--role" = true)]
  | case4 f gen t h1 h2 h3 v r2 ih =>
    simp only [Bool.or_eq_true, decide_eq_true_eq] at h3
    rcases h3 with rfl | rfl <;>
      simp [JobEvent.flagLoop, specFlagAux, slotUpdate, ih,
        (by decide : startsDash "-t" = true), (by decide : startsDash "--type" = true)]
  | case5 f gen t h1 h2 h3 =>
    simp only [Bool.or_eq_true, decide_eq_true_eq] at h3
    rcases h3 with rfl | rfl <;>
      simp [JobEvent.flagLoop, specFlagAux, slotUpdate, JobEvent.finishFlags, specFinish,
        isEmpty_rev, (by decide : startsDash "-t" = true), (by decide : startsDash "--type" = true)]
  | case6 f gen t h1 h2 h3 h4 v r2 ih =>
    simp only [Bool.or_eq_true, decide_eq_true_eq] at h4
    rcases h4 with rfl | rfl <;>
      simp [JobEvent.flagLoop, specFlagAux, slotUpdate, ih,
        (by decide : startsDash "-s" = true), (by decide : startsDash "--season" = true)]
  | case7 f gen t h1 h2 h3 h4 =>
    simp only [Bool.or_eq_true, decide_eq_true_eq] at h4
    rcases h4 with rfl | rfl <;>
      simp [JobEvent.flagLoop, specFlagAux, slotUpdate, JobEvent.finishFlags, specFinish,
        isEmpty_rev, (by decide : startsDash "-s" = true), (by decide : startsDash "--season" = true)]
  | case8 f gen t h1 h2 h3 h4 h5 v r2 ih =>
    simp only [Bool.or_eq_true, decide_eq_true_eq] at h5
    rcases h5 with rfl | rfl <;>
      simp [JobEvent.flagLoop, specFlagAux, slotUpdate, ih,
        (by decide : startsDash "-c" = true), (by decide : startsDash "--company" = true)]
  | case9 f gen t h1 h2 h3 h4 h5 =>
    simp only [Bool.or_eq_true, decide_eq_true_eq] at h5
    rcases h5 with rfl | rfl <;>
      simp [JobEvent.flagLoop, specFlagAux, slotUpdate, JobEvent.finishFlags, specFinish,
        isEmpty_rev, (by decide : startsDash "-c" = true), (by decide : startsDash "--company" = true)]
  | case10 f gen t h1 h2 h3 h4 h5 h6 v r2 ih =>
    simp only [Bool.or_eq_true, decide_eq_true_eq] at h6
    rcases h6 with rfl | rfl <;>
      simp [JobEvent.flagLoop, specFlagAux, slotUpdate, ih,
        (by decide : startsDash "-l" = true), (by decide : startsDash "--location" = true)]
  | case11 f gen t h1 h2 h3 h4 h5 h6 =>
    simp only [Bool.or_eq_true, decide_eq_true_eq] at h6
    rcases h6 with rfl | rfl <;>
      simp [JobEvent.flagLoop, specFlagAux, slotUpdate, JobEvent.finishFlags, specFinish,
        isEmpty_rev, (by decide : startsDash "-l" = true), (by decide : startsDash "--location" = true)]
  | case12 f gen t rest h1 h2 h3 h4 h5 h6 ih =>
    simp only [Bool.or_eq_true, decide_eq_true_eq, not_or] at h2 h3 h4 h5 h6
    have hupd : slotUpdate t = none := by
      simp [slotUpdate, h2.1, h2.2, h3.1, h3.2, h4.1, h4.2, h5.1, h5.2, h6.1, h6.2]
    cases rest with
    | nil => simp [JobEvent.flagLoop, specFlagAux, h1, hupd, JobEvent.finishFlags,
        specFinish, isEmpty_rev]
    | cons a b =>
      rw [JobEvent.flagLoop.eq_def, specFlagAux.eq_def]
      simp [h1, hupd, h2.1, h2.2, h3.1, h3.2, h4.1, h4.2, h5.1, h5.2, h6.1, h6.2]
      exact ih
  | case13 f gen t rest h1 ih =>
    rw [JobEvent.flagLoop.eq_def, specFlagAux.eq_def]
    simp only [h1, Bool.false_eq_true, if_false]
    simpa [List.reverse_cons] using ih

/-- C6: on argument strings free of bracket characters,
`paste_jobs_command` behaves exactly as the spec's flag-notation contract
(tokenize on whitespace, recognized flags consume exactly the next token,
unrecognized or value-less flags are skipped without raising, the rest
joins `general_search` in order); in particular the mixed-order example
parses to company "whiskers", location "remote", type "full-time",
general_search "cat behavior", with role and season absent. -/
theorem paste_jobs_flag_notation_spec :
    (∀ s : String, s.toList.contains '[' = false → s.toList.contains ']' = false →
        JobEvent.paste_jobs_command s = specFlagParse s) ∧
      JobEvent.paste_jobs_command "-c whiskers cat -l remote -t full-time behavior" =
        { role := none, type := some "full-time", season := none,
          company := some "whiskers", location := some "remote",
          general_search := some "cat behavior" } := by
  constructor
  · intro s h1 h2
    by_cases hs : (pyStrip s).isEmpty
    · have hnil : pyStripL s.toList = [] := by
        have hemp : pyStrip s = "" := (String.isEmpty_iff _).mp hs
        have := congrArg String.data hemp
        simpa [pyStrip] using this
      have hsplit : pySplit s = [] :=
        pySplitAux_nil_of_ws (pyStrip_nil_all_ws hnil)
      simp [JobEvent.paste_jobs_command, hs, specFlagParse, hsplit, specFlagAux, specFinish]
    · simp only [JobEvent.paste_jobs_command, hs, Bool.false_eq_true, if_false, h1,
        Bool.false_and, ite_false]
      have := flagLoop_eq_spec {} [] (pySplit s)
      simpa [specFlagParse] using this
  · decide

/-- C6 witness: a concrete bracket-free argument string on which the
implementation and the spec-level parse agree. -/
theorem paste_jobs_flag_notation_spec_witness :
    JobEvent.paste_jobs_command "-c acme robots" = specFlagParse "-c acme robots" :=
  paste_jobs_flag_notation_spec.1 "-c acme robots" (by decide) (by decide)

namespace Rss

/-- The scan of the empty list is empty for any fuel. -/
theorem cleanAtAux_nil (n : Nat) : cleanAtAux n [] = [] := by
  cases n <;> rfl

/-- When no position matches `\s+at`, the substitution is the identity. -/
theorem cleanAt_id (fuel : Nat) :
    ∀ l : List Char, l.length ≤ fuel → hasWsAt l = false → cleanAtAux fuel l = l := by
  induction fuel with
  | zero => intro l _ _; rfl
  | succ n ih =>
    intro l hf h
    cases l with
    | nil => rfl
    | cons c r =>
      simp only [hasWsAt, Bool.or_eq_false_iff] at h
      simp only [cleanAtAux, h.1, Bool.false_eq_true, if_false]
      have : r.length ≤ n := by simpa using hf
      rw [ih r this h.2]

end Rss

namespace Rss

/-- When a prefix free of `\s+at` matches is followed by whitespace,
"at" (either case) and a newline-free tail, the substitution deletes
everything from that whitespace on and keeps the prefix exactly. -/
theorem cleanAt_cut :
    ∀ (p : List Char) (fuel : Nat) (c0 a b : Char) (s : List Char),
      (p ++ c0 :: a :: b :: s).length ≤ fuel →
      hasWsAt p = false →
      p.getLast?.map isPyWs ≠ some true →
      isPyWs c0 = true → (a = 'a' ∨ a = 'A') → (b = 't' ∨ b = 'T') →
      (∀ c ∈ s, c ≠ '\n') →
      cleanAtAux fuel (p ++ c0 :: a :: b :: s) = p := by
  intro p
  induction p with
  | nil =>
    intro fuel c0 a b s hf hp hlast hc0 ha hb hs
    cases fuel with
    | zero => simp at hf
    | succ n =>
      have hna : isPyWs a = false := by rcases ha with rfl | rfl <;> decide
      have hcond : wsAtHere (c0 :: a :: b :: s) = true := by
        have h1 : (c0 :: a :: b :: s).dropWhile isPyWs = a :: b :: s := by
          simp [List.dropWhile_cons, hc0, hna]
        have hat : "at".toList = ['a', 't'] := rfl
        rcases ha with rfl | rfl <;> rcases hb with rfl | rfl <;>
          simp [wsAtHere, hc0, h1, hat, startsWithCI]
      simp only [List.nil_append, cleanAtAux, hcond, if_true]
      have h1 : (c0 :: a :: b :: s).dropWhile isPyWs = a :: b :: s := by
        simp [List.dropWhile_cons, hc0, hna]
      rw [h1]
      have h2 : List.dropWhile (fun d => d ≠ '\n') s = [] := by
        rw [List.dropWhile_eq_nil_iff]
        intro x hx
        simpa using hs x hx
      simp only [List.drop_succ_cons, List.drop_zero, h2]
      exact cleanAtAux_nil n
  | cons c p' ihp =>
    intro fuel c0 a b s hf hp hlast hc0 ha hb hs
    cases fuel with
    | zero => simp at hf
    | succ n =>
      have hw : wsAtHere (c :: p') = false ∧ hasWsAt p' = false := by
        simpa [hasWsAt, Bool.or_eq_false_iff] using hp
      have hcond : wsAtHere (c :: (p' ++ c0 :: a :: b :: s)) = false := by
        by_cases hc : isPyWs c = true
        · have hstart : startsWithCI "at".toList ((c :: p').dropWhile isPyWs) = false := by
            have h0 := hw.1
            simp only [wsAtHere, hc, Bool.true_and] at h0
            exact h0
          rcases hu : (c :: p').dropWhile isPyWs with _ | ⟨d, u⟩
          · exfalso
            have hall := List.dropWhile_eq_nil_iff.mp hu
            have hne : (c :: p') ≠ [] := by simp
            apply hlast
            rw [List.getLast?_eq_getLast _ hne]
            simp [hall _ (List.getLast_mem hne)]
          · have hconc : (c :: (p' ++ c0 :: a :: b :: s)).dropWhile isPyWs
                = d :: (u ++ c0 :: a :: b :: s) := by
              have he : (c :: (p' ++ c0 :: a :: b :: s)) = (c :: p') ++ (c0 :: a :: b :: s) := by
                simp
              rw [he, List.dropWhile_append, hu]
              simp
            rw [wsAtHere.eq_def]
            simp only [hc, Bool.true_and, hconc]
            have hat : "at".toList = ['a', 't'] := rfl
            rw [hat] at hstart ⊢
            rw [hu] at hstart
            cases u with
            | cons e u' =>
              simp only [startsWithCI, Bool.and_true] at hstart ⊢
              exact hstart
            | nil =>
              have hc0t : Char.toLower c0 ≠ 't' := by
                simp only [isPyWs, Bool.or_eq_true, decide_eq_true_eq] at hc0
                rcases hc0 with ((((rfl | rfl) | rfl) | rfl) | rfl) | rfl <;> decide
              simp [startsWithCI, hc0t]
        · simp only [Bool.not_eq_true] at hc
          simp [wsAtHere, hc]
      have hstep : (c :: p') ++ c0 :: a :: b :: s = c :: (p' ++ c0 :: a :: b :: s) := by simp
      rw [hstep, cleanAtAux.eq_def]
      simp only [hcond, Bool.false_eq_true, if_false]
      have hlast' : p'.getLast?.map isPyWs ≠ some true := by
        cases p' with
        | nil => simp
        | cons x xs =>
          rw [List.getLast?_cons_cons] at hlast
          exact hlast
      have hf' : (p' ++ c0 :: a :: b :: s).length ≤ n := by
        simp only [List.length_append, List.length_cons] at hf ⊢
        omega
      rw [ihp n c0 a b s hf' hw.2 hlast' hc0 ha hb hs]

end Rss

/-- C7 (counterexample): the title cleanup is not bounded to the token
" at " — it strips " Atlanta" (whitespace + "at" with no trailing
boundary) — it performs no whitespace trimming, and the claim's example
yields Company "Unknown" when the description is exactly
"Employer: Google" (the employer regex needs a terminator). -/
theorem title_cleanup_not_token_bounded :
    Rss.cleanTitleAt "Senior Dev Atlanta" = "Senior Dev" ∧
      Rss.cleanTitleAt " Engineer" = " Engineer" ∧
      (Rss.normalizeEntry "now"
          { title := some "Software Engineer at Google",
            description := some "Employer: Google" }).rCompany = "Unknown" :=
  ⟨by decide, by decide, by decide⟩

/-- C7 (amended): the normalizer strips the title from the first
occurrence of whitespace immediately followed by the letters "at"
(case-insensitive, no trailing word boundary) through the end of that
line, and performs no other whitespace trimming; the claim's example
holds once the Employer field ends in a terminator: title
"Software Engineer at Google" with description "Employer: Google\n"
yields Title "Software Engineer" and Company "Google". -/
theorem title_cleanup_amended :
    (∀ now : String,
        (Rss.normalizeEntry now
            { title := some "Software Engineer at Google",
              description := some "Employer: Google\n" }).rTitle = "Software Engineer" ∧
        (Rss.normalizeEntry now
            { title := some "Software Engineer at Google",
              description := some "Employer: Google\n" }).rCompany = "Google") ∧
      (∀ t : List Char, Rss.hasWsAt t = false →
        Rss.cleanTitleAt (String.mk t) = String.mk t) ∧
      (∀ (p : List Char) (c0 a b : Char) (s : List Char),
        Rss.hasWsAt p = false →
        p.getLast?.map isPyWs ≠ some true →
        isPyWs c0 = true → (a = 'a' ∨ a = 'A') → (b = 't' ∨ b = 'T') →
        (∀ c ∈ s, c ≠ '\n') →
        Rss.cleanTitleAt (String.mk (p ++ c0 :: a :: b :: s)) = String.mk p) := by
  refine ⟨fun now => ⟨rfl, rfl⟩, fun t ht => ?_, fun p c0 a b s hp hlast hc0 ha hb hs => ?_⟩
  · exact congrArg String.mk (Rss.cleanAt_id _ t le_rfl ht)
  · exact congrArg String.mk (Rss.cleanAt_cut p _ c0 a b s le_rfl hp hlast hc0 ha hb hs)

/-- C7 witness: the cut theorem applied to the concrete example title. -/
theorem title_cleanup_amended_witness :
    Rss.cleanTitleAt (String.mk ("Software Engineer".toList ++ ' ' :: 'a' :: 't' :: " Google".toList)) =
      String.mk "Software Engineer".toList :=
  title_cleanup_amended.2.2 "Software Engineer".toList ' ' 'a' 't' " Google".toList
    (by decide) (by decide) (by decide) (Or.inl rfl) (Or.inl rfl) (by decide)

namespace Rss

/-- Spec place-name characters lie in the regex class. -/
theorem claimChar_class {c : Char} (h : isClaimPlaceChar c = true) : isLocClass c = true := by
  simp only [isClaimPlaceChar, Bool.or_eq_true] at h
  simp only [isLocClass, Bool.or_eq_true]
  tauto

/-- Spec place-name characters are never commas. -/
theorem claimChar_ne_comma {c : Char} (h : isClaimPlaceChar c = true) : c ≠ ',' := by
  intro rfl0
  subst rfl0
  simp [isClaimPlaceChar] at h

/-- Spec place-name characters are never newlines. -/
theorem claimChar_ne_nl {c : Char} (h : isClaimPlaceChar c = true) : c ≠ '\n' := by
  intro rfl0
  subst rfl0
  simp [isClaimPlaceChar] at h

/-- A spec place-name character other than the space is not whitespace. -/
theorem claimChar_not_ws {c : Char} (h : isClaimPlaceChar c = true) (hsp : c ≠ ' ') :
    isPyWs c = false := by
  cases hw : isPyWs c
  · rfl
  · exfalso
    simp only [isPyWs, Bool.or_eq_true, decide_eq_true_eq] at hw
    rcases hw with ((((rfl | rfl) | rfl) | rfl) | rfl) | rfl
    · exact hsp rfl
    all_goals simp [isClaimPlaceChar] at h

/-- Capital letters are not commas. -/
theorem upper_ne_comma {c : Char} (h : c.isUpper = true) : c ≠ ',' := by
  intro rfl0; subst rfl0; simp at h

/-- Capital letters are not newlines. -/
theorem upper_ne_nl {c : Char} (h : c.isUpper = true) : c ≠ '\n' := by
  intro rfl0; subst rfl0; simp at h

/-- Capital letters are not whitespace. -/
theorem upper_not_ws {c : Char} (h : c.isUpper = true) : isPyWs c = false := by
  cases hw : isPyWs c
  · rfl
  · exfalso
    simp only [isPyWs, Bool.or_eq_true, decide_eq_true_eq] at hw
    rcases hw with ((((rfl | rfl) | rfl) | rfl) | rfl) | rfl <;> simp_all

/-- takeWhile keeps a list all of whose elements satisfy the predicate. -/
theorem takeWhile_all {p : Char → Bool} :
    ∀ {l : List Char}, (∀ c ∈ l, p c = true) → l.takeWhile p = l := by
  intro l
  induction l with
  | nil => intro _; rfl
  | cons c r ih =>
    intro h
    rw [List.takeWhile_cons, if_pos (h c (by simp))]
    rw [ih fun d hd => h d (by simp [hd])]

/-- The added element is a member after a set add. -/
theorem mem_addOnce_self (l : List String) (s : String) : s ∈ addOnce l s := by
  unfold addOnce
  split
  · next h => exact List.mem_of_elem_eq_true h
  · simp

/-- Python strip is the identity when neither end is whitespace. -/
theorem pyStripL_eq_self {l : List Char} (h1 : l ≠ [])
    (hhead : ∀ c, l.head? = some c → isPyWs c = false)
    (hlast : ∀ c, l.getLast? = some c → isPyWs c = false) : pyStripL l = l := by
  obtain ⟨c, r, rfl⟩ : ∃ c r, l = c :: r := by
    cases l with
    | nil => simp at h1
    | cons c r => exact ⟨c, r, rfl⟩
  unfold pyStripL
  rw [List.dropWhile_cons, if_neg (by simp [hhead c rfl])]
  cases hrev : (c :: r).reverse with
  | nil => simp at hrev
  | cons d rest =>
    have hd : (c :: r).getLast? = some d := by
      rw [← List.head?_reverse, hrev]; rfl
    rw [List.dropWhile_cons, if_neg (by simp [hlast d hd])]
    rw [← hrev, List.reverse_reverse]

end Rss

namespace Rss

/-- The findall scan of the empty list finds nothing. -/
theorem findAllCSAux_nil (n : Nat) : findAllCSAux n [] = [] := by cases n <;> rfl

/-- The lazy class run consumes a comma-free class word and completes on
the comma-space-capitals suffix. -/
theorem lazyRun_complete (a b : Char) (ha : a.isUpper = true) (hb : b.isUpper = true) :
    ∀ (q acc : List Char), (∀ c ∈ q, isLocClass c = true ∧ c ≠ ',') →
      lazyRun acc (q ++ ',' :: ' ' :: a :: b :: []) =
        some (acc ++ q ++ [',', ' ', a, b], []) := by
  intro q
  induction q with
  | nil =>
    intro acc _
    simp [lazyRun, ha, hb]
  | cons c q' ih =>
    intro acc h
    have hc := h c (by simp)
    have hstep : (c :: q') ++ ',' :: ' ' :: a :: b :: [] =
        c :: (q' ++ ',' :: ' ' :: a :: b :: []) := by simp
    rw [hstep, lazyRun.eq_def]
    simp only [hc.2, if_false, hc.1, if_true]
    rw [ih (acc ++ [c]) fun d hd => h d (by simp [hd])]
    simp

/-- An anchored attempt on a full single-pair line matches the whole line. -/
theorem tryCS_complete (a b : Char) (ha : a.isUpper = true) (hb : b.isUpper = true)
    (place : List Char) (hne : place ≠ [])
    (h : ∀ c ∈ place, isLocClass c = true ∧ c ≠ ',') :
    tryCS (place ++ ',' :: ' ' :: a :: b :: []) =
      some (place ++ [',', ' ', a, b], []) := by
  obtain ⟨c, p', rfl⟩ : ∃ c p', place = c :: p' := by
    cases place with
    | nil => simp at hne
    | cons c p' => exact ⟨c, p', rfl⟩
  have hc := h c (by simp)
  have hstep : (c :: p') ++ ',' :: ' ' :: a :: b :: [] =
      c :: (p' ++ ',' :: ' ' :: a :: b :: []) := by simp
  rw [hstep, tryCS, if_pos hc.1]
  rw [lazyRun_complete a b ha hb p' [c] fun d hd => h d (by simp [hd])]
  simp

/-- findall on a line that is exactly one place-state pair returns exactly
that pair. -/
theorem findAllCS_single (a b : Char) (ha : a.isUpper = true) (hb : b.isUpper = true)
    (place : List Char) (hne : place ≠ [])
    (h : ∀ c ∈ place, isLocClass c = true ∧ c ≠ ',') :
    findAllCS (place ++ ',' :: ' ' :: a :: b :: []) =
      [String.mk (place ++ [',', ' ', a, b])] := by
  obtain ⟨c, p', rfl⟩ : ∃ c p', place = c :: p' := by
    cases place with
    | nil => simp at hne
    | cons c p' => exact ⟨c, p', rfl⟩
  unfold findAllCS
  have hlen : ((c :: p') ++ ',' :: ' ' :: a :: b :: []).length =
      (p' ++ ',' :: ' ' :: a :: b :: []).length + 1 := by simp
  rw [hlen]
  have hstep : (c :: p') ++ ',' :: ' ' :: a :: b :: [] =
      c :: (p' ++ ',' :: ' ' :: a :: b :: []) := by simp
  rw [hstep, findAllCSAux]
  rw [← hstep, tryCS_complete a b ha hb (c :: p') hne h]
  simp [findAllCSAux_nil]

/-- No comma, no comma-space split. -/
theorem rsplitCS_none : ∀ {l : List Char}, (∀ c ∈ l, c ≠ ',') → rsplitCS l = none := by
  intro l
  induction l with
  | nil => intro _; rfl
  | cons c r ih =>
    intro h
    rw [rsplitCS, ih fun d hd => h d (by simp [hd])]
    simp [h c (by simp)]

/-- Splitting a single-pair string at its last comma-space yields the
place and the two-letter state. -/
theorem rsplitCS_last (a b : Char) (ha : a ≠ ',') (hb : b ≠ ',') :
    ∀ (q : List Char), (∀ c ∈ q, c ≠ ',') →
      rsplitCS (q ++ ',' :: ' ' :: a :: b :: []) = some (q, [a, b]) := by
  intro q
  induction q with
  | nil =>
    intro _
    rw [List.nil_append, rsplitCS]
    have hno : ∀ c ∈ ' ' :: a :: b :: [], c ≠ ',' := by
      intro c hc
      simp only [List.mem_cons, List.mem_singleton, List.not_mem_nil, or_false] at hc
      rcases hc with rfl | rfl | rfl
      · decide
      · exact ha
      · exact hb
    rw [rsplitCS_none hno]
    simp
  | cons c q' ih =>
    intro h
    have hstep : (c :: q') ++ ',' :: ' ' :: a :: b :: [] =
        c :: (q' ++ ',' :: ' ' :: a :: b :: []) := by simp
    rw [hstep, rsplitCS, ih fun d hd => h d (by simp [hd])]

end Rss

namespace Rss

/-- The Location-line search on a description that is exactly a Location
header plus content captures that content. -/
theorem findLocLine_at (P : List Char) (hP : P ≠ [])
    (hheadP : ∀ c, P.head? = some c → isPyWs c = false)
    (hnlP : ∀ c ∈ P, c ≠ '\n') :
    findLocLine ("Location: ".toList ++ P) = some P := by
  obtain ⟨h0, P', rfl⟩ : ∃ h0 P', P = h0 :: P' := by
    cases P with
    | nil => simp at hP
    | cons h0 P' => exact ⟨h0, P', rfl⟩
  have hlist : "Location: ".toList ++ (h0 :: P') =
      'L' :: 'o' :: 'c' :: 'a' :: 't' :: 'i' :: 'o' :: 'n' :: ':' :: ' ' :: h0 :: P' := rfl
  rw [hlist, findLocLine]
  have hsw : startsWithCI "location".toList
      ('L' :: 'o' :: 'c' :: 'a' :: 't' :: 'i' :: 'o' :: 'n' :: ':' :: ' ' :: h0 :: P') = true := by
    simp only [startsWithCI]
    decide
  have hmatch : matchLocAt
      ('L' :: 'o' :: 'c' :: 'a' :: 't' :: 'i' :: 'o' :: 'n' :: ':' :: ' ' :: h0 :: P') =
      some (h0 :: P') := by
    rw [matchLocAt, if_pos hsw]
    have hdrop : ('L' :: 'o' :: 'c' :: 'a' :: 't' :: 'i' :: 'o' :: 'n' :: ':' :: ' ' :: h0 :: P').drop 8
        = ':' :: ' ' :: h0 :: P' := rfl
    rw [hdrop]
    rw [List.dropWhile_cons, if_neg (by decide)]
    show groupAfterColon (' ' :: h0 :: P') = some (h0 :: P')
    have hh0 : isPyWs h0 = false := hheadP h0 rfl
    have hu : (' ' :: h0 :: P').dropWhile isPyWs = h0 :: P' := by
      rw [List.dropWhile_cons, if_pos (by decide), List.dropWhile_cons, if_neg (by simp [hh0])]
    rw [groupAfterColon]
    simp only [hu, List.isEmpty_cons, Bool.false_eq_true, if_false]
    rw [takeWhile_all fun c hc => by simpa using hnlP c hc]
  rw [hmatch]

end Rss

namespace Rss

/-- Every entry of the state table is two capital letters. -/
theorem valid_states_shape :
    ∀ s ∈ VALID_STATES, s.data.length = 2 ∧ ∀ c ∈ s.data, c.isUpper = true := by
  decide

/-- A non-empty character list makes a non-empty string. -/
theorem mk_cons_not_empty (c : Char) (l : List Char) :
    (String.mk (c :: l)).isEmpty = false := by
  cases he : (String.mk (c :: l)).isEmpty
  · rfl
  · exfalso
    have := congrArg String.data ((String.isEmpty_iff _).mp he)
    simp at this

/-- Membership survives the final Unknown-defaulting step. -/
theorem mem_ite_unknown (x : String) (l : List String) (h : x ∈ l) :
    x ∈ (if l.isEmpty then ["Unknown"] else l) := by
  cases hl : l.isEmpty
  · simpa [hl]
  · rw [List.isEmpty_iff.mp hl] at h
    simp at h

/-- C4 (amended): when the first Location: line's content is exactly one
`place, ST` pair — place-name non-empty, built of letters, spaces,
periods, hyphens and apostrophes, not starting or ending in a space —
with `ST` one of the 50 state codes and the pair at most 3
whitespace-delimited words, `extract_locations` includes that exact
string in its result. -/
theorem extract_locations_single_pair :
    ∀ (place st : List Char),
      place ≠ [] →
      (∀ c ∈ place, isClaimPlaceChar c = true) →
      place.head? ≠ some ' ' →
      place.getLast? ≠ some ' ' →
      String.mk st ∈ VALID_STATES →
      (pySplit (String.mk (place ++ ',' :: ' ' :: st))).length ≤ 3 →
      String.mk (place ++ ',' :: ' ' :: st) ∈
        extract_locations (String.mk ("Location: ".toList ++ (place ++ ',' :: ' ' :: st))) := by
  intro place st hne hchars hhead hlast hvalid hwords
  have hsh := valid_states_shape _ hvalid
  obtain ⟨a, b, rfl⟩ := List.length_eq_two.mp hsh.1
  have ha : a.isUpper = true := hsh.2 a (by simp)
  have hb : b.isUpper = true := hsh.2 b (by simp)
  obtain ⟨c0, p', rfl⟩ : ∃ c0 p', place = c0 :: p' := by
    cases place with
    | nil => simp at hne
    | cons c0 p' => exact ⟨c0, p', rfl⟩
  -- facts about the head character
  have hc0m : isClaimPlaceChar c0 = true := hchars c0 (by simp)
  have hc0sp : c0 ≠ ' ' := by intro h; exact hhead (by simp [h])
  have hc0ws : isPyWs c0 = false := claimChar_not_ws hc0m hc0sp
  -- the pair string
  have hPhead : ∀ c, ((c0 :: p') ++ ',' :: ' ' :: a :: b :: []).head? = some c →
      isPyWs c = false := by
    intro c hc
    simp only [List.cons_append, List.head?_cons, Option.some_inj] at hc
    subst hc
    exact hc0ws
  have hPnl : ∀ c ∈ (c0 :: p') ++ ',' :: ' ' :: a :: b :: [], c ≠ '\n' := by
    intro c hc
    rcases List.mem_append.mp hc with h1 | h1
    · exact claimChar_ne_nl (hchars c h1)
    · simp only [List.mem_cons, List.not_mem_nil, or_false] at h1
      rcases h1 with rfl | rfl | rfl | rfl <;> first | decide | exact upper_ne_nl ha | exact upper_ne_nl hb
  have hPlast : ∀ c, ((c0 :: p') ++ ',' :: ' ' :: a :: b :: []).getLast? = some c →
      isPyWs c = false := by
    intro c hc
    rw [List.getLast?_append] at hc
    have hbc : some b = some c := hc
    obtain rfl : b = c := by injection hbc
    exact upper_not_ws hb
  have hstrip : pyStripL ((c0 :: p') ++ ',' :: ' ' :: a :: b :: []) =
      (c0 :: p') ++ ',' :: ' ' :: a :: b :: [] :=
    pyStripL_eq_self (by simp) hPhead hPlast
  have hclass : ∀ c ∈ (c0 :: p'), isLocClass c = true ∧ c ≠ ',' := fun c hc =>
    ⟨claimChar_class (hchars c hc), claimChar_ne_comma (hchars c hc)⟩
  have hfind := findAllCS_single a b ha hb (c0 :: p') (by simp) hclass
  have hrsplit := rsplitCS_last a b (upper_ne_comma ha) (upper_ne_comma hb) (c0 :: p')
    (fun c hc => claimChar_ne_comma (hchars c hc))
  have hloc := findLocLine_at ((c0 :: p') ++ ',' :: ' ' :: a :: b :: []) (by simp) hPhead hPnl
  -- membership in the validation loop, whatever the remote/hybrid prefix did
  have key : ∀ r2 : List String,
      String.mk ((c0 :: p') ++ ',' :: ' ' :: a :: b :: []) ∈
        cityStateLoop r2 [String.mk ((c0 :: p') ++ ',' :: ' ' :: a :: b :: [])] := by
    intro r2
    have hlocs : pyStrip (String.mk ((c0 :: p') ++ ',' :: ' ' :: a :: b :: [])) =
        String.mk ((c0 :: p') ++ ',' :: ' ' :: a :: b :: []) :=
      congrArg String.mk hstrip
    rw [cityStateLoop]
    simp only [hlocs]
    simp only [show (String.mk ((c0 :: p') ++ ',' :: ' ' :: a :: b :: [])).toList =
      (c0 :: p') ++ ',' :: ' ' :: a :: b :: [] from rfl, hrsplit]
    have hcontains : VALID_STATES.contains (String.mk (a :: b :: [])) = true :=
      List.elem_eq_true_of_mem hvalid
    have hdec : decide ((pySplit (String.mk ((c0 :: p') ++ ',' :: ' ' :: a :: b :: []))).length ≤ 3)
        = true := decide_eq_true hwords
    simp only [hcontains, hdec, Bool.and_self, Bool.true_and, if_true]
    rw [cityStateLoop]
    exact mem_addOnce_self r2 _
  -- goal continues below
  -- unfold extract_locations
  have hdesc : (String.mk ("Location: ".toList ++
      ((c0 :: p') ++ ',' :: ' ' :: a :: b :: []))).isEmpty = false := mk_cons_not_empty _ _
  rw [extract_locations]
  simp only [hdesc, Bool.false_eq_true, if_false]
  rw [show (String.mk ("Location: ".toList ++ ((c0 :: p') ++ ',' :: ' ' :: a :: b :: []))).toList =
    "Location: ".toList ++ ((c0 :: p') ++ ',' :: ' ' :: a :: b :: []) from rfl]
  simp only [hloc, hstrip, hfind]
  exact mem_ite_unknown _ _ (key _)

end Rss

/-- C4 (counterexample): "New York City, NY" satisfies every condition of
the claim (valid state, 4 words) yet is rejected — the code caps at 3
words, not 4 — and on a Location line holding two pairs the lazy scan
absorbs the text between them, so the exact substring "Boston, MA" is
not in the result (only "and Boston, MA" is). -/
theorem extract_locations_word_cap_and_absorption :
    Rss.extract_locations "Location: New York City, NY" = ["Unknown"] ∧
      "Boston, MA" ∉ Rss.extract_locations "Location: Cambridge, MA and Boston, MA" :=
  ⟨by decide, by decide⟩

/-- C4 witness: the single-pair guarantee evaluated at "Syracuse, NY". -/
theorem extract_locations_single_pair_witness :
    String.mk ("Syracuse".toList ++ ',' :: ' ' :: "NY".toList) ∈
      Rss.extract_locations
        (String.mk ("Location: ".toList ++ ("Syracuse".toList ++ ',' :: ' ' :: "NY".toList))) :=
  Rss.extract_locations_single_pair "Syracuse".toList "NY".toList (by decide) (by decide)
    (by decide) (by decide) (by decide) (by decide)
